import Mathlib

/-!
Verification of the domainidom aggregation core against its specification.

The definitions below are a shallow embedding of the Python sources:
* `src/domainidom/storage/cache.py`   (DomainCache)
* `src/domainidom/models.py`          (RegistrarPrice, PriceComparison, DomainCheckResult)
* `src/domainidom/services/domain_check.py` (TokenBucket, provider clients, check_domains)
* `src/domainidom/services/pricing.py` (RateLimiter, registrar pricing clients)

Machine floats carried by the code (prices, seconds) are modelled as `Rat`:
the code never does float arithmetic on them beyond comparison, division by a
constant and subtraction, all exact here.  Network effects are modelled by
oracle functions passed explicitly; a raised Python exception is an
`Except.error` value of the oracle.
-/

namespace Domainidom

/-! ### Cache model — `storage/cache.py`

SQLite stores the `available` column as an INTEGER (the code writes
`int(bool(available))` for non-None values), `price_usd` as REAL, and the two
strings verbatim.  `get` converts the stored integer back with `bool(row[0])`.
A Python caller may pass any value in the `available` slot, so that slot of the
`set` input is modelled by `AvailVal`, covering the dynamic values relevant to
truthiness. -/

/-- A dynamically-typed Python value that may appear in the `available` slot of
the tuple handed to `DomainCache.set`. -/
inductive AvailVal where
  | vNone : AvailVal
  | vBool : Bool → AvailVal
  | vInt : Int → AvailVal
  | vStr : String → AvailVal
deriving DecidableEq

/-- Python truthiness (`bool(x)`) for the values of `AvailVal`. -/
def pyTruthy : AvailVal → Bool
  | .vNone => false
  | .vBool b => b
  | .vInt i => decide (i ≠ 0)
  | .vStr s => decide (s ≠ "")

/-- Embed an `Optional[bool]` into the dynamic value type. -/
def AvailVal.ofOptBool : Option Bool → AvailVal
  | none => .vNone
  | some b => .vBool b

/-- One row of the `domain_cache` table: the stored column values.
`available` holds the INTEGER written by `set` (`int(bool(x))`), or NULL. -/
structure CacheRow where
  available : Option Int
  price_usd : Option Rat
  provider : Option String
  error : Option String
deriving DecidableEq

/-- The tuple returned by `DomainCache.get`: `available` has been normalised
back to `Optional[bool]` via `bool(row[0])`. -/
structure CacheGot where
  available : Option Bool
  price_usd : Option Rat
  provider : Option String
  error : Option String
deriving DecidableEq

/-- The cache table, newest write first; `get` reads the first matching row,
so consing a row realises SQLite `REPLACE` last-write-wins semantics. -/
def DomainCache : Type := List (String × CacheRow)

/-- The empty cache (fresh database file). -/
def DomainCache.empty : DomainCache := []

/-- `DomainCache.set`: `REPLACE INTO domain_cache ...` with
`None if available is None else int(bool(available))` in the available column. -/
def DomainCache.set (c : DomainCache) (d : String) (a : AvailVal)
    (p : Option Rat) (pr er : Option String) : DomainCache :=
  (d, ⟨match a with
       | .vNone => none
       | v => some (if pyTruthy v then 1 else 0),
       p, pr, er⟩) :: c

/-- First row whose key matches, mirroring the primary-key lookup. -/
def DomainCache.find : DomainCache → String → Option CacheRow
  | [], _ => none
  | (d₀, r) :: rest, d => if d₀ = d then some r else DomainCache.find rest d

/-- `DomainCache.get`: SELECT then `None if row[0] is None else bool(row[0])`,
`None if row[1] is None else float(row[1])`, strings verbatim. -/
def DomainCache.get (c : DomainCache) (d : String) : Option CacheGot :=
  (DomainCache.find c d).map fun r =>
    ⟨r.available.map (fun i => decide (i ≠ 0)), r.price_usd, r.provider, r.error⟩

/-! ### Price comparison — `models.py` -/

/-- `RegistrarPrice` dataclass. -/
structure RegistrarPrice where
  registrar : String
  price_usd : Option Rat
  currency : String := "USD"
  is_available : Option Bool := none
  registration_url : Option String := none
  renewal_price_usd : Option Rat := none
  transfer_price_usd : Option Rat := none
  error : Option String := none
deriving DecidableEq

/-- `PriceComparison` dataclass after `__post_init__` has run. -/
structure PriceComparison where
  domain : String
  prices : List RegistrarPrice
  best_price : Option RegistrarPrice
deriving DecidableEq

/-- The `min(...)` key: `lambda p: p.price_usd`.  Qualifying entries always
have a present price, for which this is exactly that price. -/
def priceKey (p : RegistrarPrice) : Rat := p.price_usd.getD 0

/-- The filter in `__post_init__`: `p.price_usd is not None and p.is_available`
(Python truthiness of `Optional[bool]` holds exactly at `True`). -/
def qualifying (prices : List RegistrarPrice) : List RegistrarPrice :=
  prices.filter fun p => p.price_usd.isSome && decide (p.is_available = some true)

/-- Python `min(xs, key=...)` keeps the earliest entry on key ties. -/
def pickMin (acc : RegistrarPrice) : List RegistrarPrice → RegistrarPrice
  | [] => acc
  | q :: qs => pickMin (if priceKey q < priceKey acc then q else acc) qs

/-- `min(available_prices, key=lambda p: p.price_usd)` on the qualifying
entries, absent when none qualify. -/
def bestPriceCalc (prices : List RegistrarPrice) : Option RegistrarPrice :=
  match qualifying prices with
  | [] => none
  | p :: ps => some (pickMin p ps)

/-- `PriceComparison.__init__` followed by `__post_init__`: the best price is
recomputed only when the supplied one is falsy (i.e. `None`; a dataclass
instance is always truthy) and `prices` is non-empty. -/
def mkPriceComparison (domain : String) (prices : List RegistrarPrice)
    (best : Option RegistrarPrice) : PriceComparison :=
  if best.isNone && !prices.isEmpty then ⟨domain, prices, bestPriceCalc prices⟩
  else ⟨domain, prices, best⟩

/-! ### Provider response and check result — `domain_check.py`, `models.py` -/

/-- `ProviderResponse` dataclass. -/
structure ProviderResponse where
  available : Option Bool
  price_usd : Option Rat
  provider : String
  error : Option String := none
  price_comparison : Option PriceComparison := none
deriving DecidableEq

/-- `DomainCheckResult` dataclass. -/
structure DomainCheckResult where
  domain : String
  available : Option Bool
  registrar_price_usd : Option Rat := none
  provider : Option String := none
  error : Option String := none
  price_comparison : Option PriceComparison := none
deriving DecidableEq

/-! ### Orchestrator — `check_domains` in `services/domain_check.py`

Candidates `{name: [domain]}` are iterated name by name, then domain by
domain, so the nested loops visit exactly the flattened `(name, domain)`
sequence; results, keyed by name with per-name appends in visit order, are
modelled as the flat list of `(name, domain, result)` triples in that order.
A live resolution (`_fetch_best`) is an oracle `String → Except String
ProviderResponse`; `Except.error e` models a raised exception with
`str(exception) = e`. -/

/-- State of the first (admission) pass of `check_domains`: results produced
so far, the `domains_to_check` list, and the `calls_made` counter. -/
structure PassState where
  results : List (String × String × DomainCheckResult)
  toCheck : List (String × String)
  callsMade : Nat
deriving DecidableEq

/-- The quota-exhausted synthetic result:
`DomainCheckResult(d, None, None, "quota", "max_calls_reached")`. -/
def quotaDCR (d : String) : DomainCheckResult :=
  ⟨d, none, none, some "quota", some "max_calls_reached", none⟩

/-- The result rebuilt from a cache hit:
`DomainCheckResult(d, available, price, provider, error)`. -/
def cachedDCR (d : String) (g : CacheGot) : DomainCheckResult :=
  ⟨d, g.available, g.price_usd, g.provider, g.error, none⟩

/-- One iteration of the first pass of `check_domains`: cache hit → append
cached outcome; miss with quota exhausted → append quota outcome; miss with
quota remaining → enqueue for live resolution and increment `calls_made`. -/
def stepDomain (maxCalls : Nat) (cache : DomainCache) (st : PassState)
    (nd : String × String) : PassState :=
  match DomainCache.get cache nd.2 with
  | some g => { st with results := st.results ++ [(nd.1, nd.2, cachedDCR nd.2 g)] }
  | none =>
    if maxCalls ≤ st.callsMade then
      { st with results := st.results ++ [(nd.1, nd.2, quotaDCR nd.2)] }
    else
      { st with toCheck := st.toCheck ++ [nd], callsMade := st.callsMade + 1 }

/-- The whole first pass over the flattened candidate pairs. -/
def firstPass (maxCalls : Nat) (cache : DomainCache)
    (pairs : List (String × String)) : PassState :=
  pairs.foldl (stepDomain maxCalls cache) ⟨[], [], 0⟩

/-- `await task` with its `except Exception as e` wrapper:
a raised exception becomes `ProviderResponse(None, None, "error", str(e))`. -/
def respOf (oracle : String → Except String ProviderResponse) (d : String) :
    ProviderResponse :=
  match oracle d with
  | .ok r => r
  | .error e => ⟨none, none, "error", some e, none⟩

/-- The `DomainCheckResult` built from a provider response in the resolution
loop of `check_domains`. -/
def resolvedDCR (oracle : String → Except String ProviderResponse)
    (nd : String × String) : DomainCheckResult :=
  let resp := respOf oracle nd.2
  ⟨nd.2, resp.available, resp.price_usd, some resp.provider, resp.error,
    resp.price_comparison⟩

/-- One iteration of the resolution loop: build the result, append it, and
write it to the cache. -/
def resolveStep (oracle : String → Except String ProviderResponse)
    (acc : List (String × String × DomainCheckResult) × DomainCache)
    (nd : String × String) :
    List (String × String × DomainCheckResult) × DomainCache :=
  let dcr := resolvedDCR oracle nd
  (acc.1 ++ [(nd.1, nd.2, dcr)],
    DomainCache.set acc.2 nd.2 (AvailVal.ofOptBool dcr.available)
      dcr.registrar_price_usd dcr.provider dcr.error)

/-- The traditional (non-MCP) resolution phase over `domains_to_check`. -/
def resolvePhase (oracle : String → Except String ProviderResponse)
    (cache : DomainCache) (toCheck : List (String × String)) :
    List (String × String × DomainCheckResult) × DomainCache :=
  toCheck.foldl (resolveStep oracle) ([], cache)

/-- The flattened `(name, domain)` visit sequence of the nested loops. -/
def pairsOf (candidates : List (String × List String)) :
    List (String × String) :=
  candidates.foldr (fun nd acc => nd.2.map (fun d => (nd.1, d)) ++ acc) []

/-- `check_domains` on the traditional (MCP-disabled) path: admission pass,
then concurrent resolution of the enqueued pairs, with every resolved outcome
written to the cache. -/
def checkDomains (oracle : String → Except String ProviderResponse)
    (maxCalls : Nat) (cache : DomainCache)
    (candidates : List (String × List String)) :
    List (String × String × DomainCheckResult) × DomainCache :=
  let fp := firstPass maxCalls cache (pairsOf candidates)
  let res := resolvePhase oracle cache fp.toCheck
  (fp.results ++ res.1, res.2)

/-! ### MCP FastDomainCheck batch client — `domain_check.py`

The HTTP POST is an oracle `server : Nat → List String → Except String (List
MCPDomainResult)` taking the attempt index and the request body's domain list;
`Except.error` models any exception raised while sleeping, posting or parsing.
The functions additionally return the list of request bodies actually sent,
one per attempt, so that call counts are observable. -/

/-- `MCPDomainResult` dataclass. -/
structure MCPDomainResult where
  domain : String
  available : Option Bool
  price_usd : Option Rat := none
  error : Option String := none
deriving DecidableEq

/-- `MCPBatchResponse` dataclass. -/
structure MCPBatchResponse where
  results : List MCPDomainResult
  provider : String := "mcp-fastdomaincheck"
deriving DecidableEq

/-- The retry loop of `check_domains_batch` over `[0] + RETRY_BACKOFF`:
on success return the parsed results; on failure at backoff
`RETRY_BACKOFF[-1] = 2` return per-domain `mcp_error` results; otherwise
continue.  Returns the response (if the loop returned) and attempts made. -/
def mcpRetryLoop (server : Nat → List String → Except String (List MCPDomainResult))
    (doms : List String) : List Rat → Nat → Option MCPBatchResponse × Nat
  | [], k => (none, k)
  | b :: bs, k =>
    match server k doms with
    | .ok results => (some ⟨results, "mcp-fastdomaincheck"⟩, k + 1)
    | .error e =>
      if b = 2 then
        (some ⟨doms.map fun d => ⟨d, none, none, some ("mcp_error: " ++ e)⟩,
          "mcp-fastdomaincheck"⟩, k + 1)
      else mcpRetryLoop server doms bs (k + 1)

/-- `MCPFastDomainCheckClient.check_domains_batch`: with an API key present,
the request is truncated to `min(MCP_BATCH_SIZE, len(domains))` domains
(`domains = domains[:batch_size]` when oversized), then the retry loop posts
that one (truncated) body; only the `mcp_timeout` fallback remains if the
loop falls through. -/
def checkDomainsBatch (apiKey : Option String) (batchSize : Nat)
    (server : Nat → List String → Except String (List MCPDomainResult))
    (domains : List String) : MCPBatchResponse × List (List String) :=
  match apiKey with
  | none =>
    (⟨domains.map fun d => ⟨d, none, none, some "missing_api_key"⟩,
      "mcp-fastdomaincheck"⟩, [])
  | some _ =>
    let bs := min batchSize domains.length
    let doms := if bs < domains.length then domains.take bs else domains
    match mcpRetryLoop server doms [0, 1/2, 1, 2] 0 with
    | (some r, k) => (r, List.replicate k doms)
    | (none, k) =>
      (⟨doms.map fun d => ⟨d, none, none, some "mcp_timeout"⟩,
        "mcp-fastdomaincheck"⟩, List.replicate k doms)

/-- The padding response appended by `_fetch_mcp_fastdomaincheck` for a
domain the provider silently dropped. -/
def missingResult : ProviderResponse :=
  ⟨none, none, "mcp-fastdomaincheck", some "missing_result", none⟩

/-- `_fetch_mcp_fastdomaincheck`: map batch results to provider responses,
pad with `missing_result` up to the input length, and truncate to it. -/
def fetchMcpBatch (enabled : Bool) (apiKey : Option String) (batchSize : Nat)
    (server : Nat → List String → Except String (List MCPDomainResult))
    (domains : List String) : List ProviderResponse × List (List String) :=
  if !enabled then
    (domains.map fun _ => ⟨none, none, "stub", some "mcp_disabled", none⟩, [])
  else
    let br := checkDomainsBatch apiKey batchSize server domains
    let responses := br.1.results.map fun r =>
      (⟨r.available, r.price_usd, "mcp-fastdomaincheck", r.error, none⟩ :
        ProviderResponse)
    ((responses ++
        List.replicate (domains.length - responses.length) missingResult).take
      domains.length, br.2)

/-! ### Retrying availability clients — `_fetch_namecom`, `_fetch_domainr`

One attempt of the request/parse body is an oracle `Nat → Except String
ProviderResponse` indexed by attempt number.  Each function returns its
outcome together with the number of attempts made and the list of backoff
sleeps performed, so absence of retries and of network calls is observable. -/

/-- `RETRY_BACKOFF = [0.5, 1.0, 2.0]`. -/
def retryBackoff : List Rat := [1/2, 1, 2]

/-- The `for backoff in [0] + RETRY_BACKOFF` loop shared by `_fetch_namecom`
and `_fetch_domainr`: sleep the backoff (when non-zero), attempt, return on
success, swallow the exception and continue on failure. -/
def runRetries (oracle : Nat → Except String ProviderResponse) :
    List Rat → Nat → List Rat → Option ProviderResponse × Nat × List Rat
  | [], k, sleeps => (none, k, sleeps)
  | b :: bs, k, sleeps =>
    let sleeps₁ := if b = 0 then sleeps else sleeps ++ [b]
    match oracle k with
    | .ok r => (some r, k + 1, sleeps₁)
    | .error _ => runRetries oracle bs (k + 1) sleeps₁

/-- `_fetch_namecom`: immediate stub without credentials, otherwise the retry
loop, and after exhausting it `ProviderResponse(None, None, "name.com",
"request_failed")`. -/
def fetchNamecom (creds : Option (String × String))
    (oracle : Nat → Except String ProviderResponse) :
    ProviderResponse × Nat × List Rat :=
  match creds with
  | none => (⟨none, none, "stub", some "missing_namecom_keys", none⟩, 0, [])
  | some _ =>
    match runRetries oracle ([0] ++ retryBackoff) 0 [] with
    | (some r, k, s) => (r, k, s)
    | (none, k, s) => (⟨none, none, "name.com", some "request_failed", none⟩, k, s)

/-- `_fetch_domainr`: same shape with its own key and provider name. -/
def fetchDomainr (apiKey : Option String)
    (oracle : Nat → Except String ProviderResponse) :
    ProviderResponse × Nat × List Rat :=
  match apiKey with
  | none => (⟨none, none, "stub", some "missing_domainr_key", none⟩, 0, [])
  | some _ =>
    match runRetries oracle ([0] ++ retryBackoff) 0 [] with
    | (some r, k, s) => (r, k, s)
    | (none, k, s) => (⟨none, none, "domainr", some "request_failed", none⟩, k, s)

/-! ### Pricing client — `get_namecom_price` in `services/pricing.py` -/

/-- `get_namecom_price`: credential/enable gate, then a single attempt whose
failure is converted to `RegistrarPrice("namecom", None, error=str(e))`.
Returns the outcome and the number of attempts made. -/
def getNamecomPrice (enabled : Bool) (creds : Option (String × String))
    (oracle : Nat → Except String RegistrarPrice) : RegistrarPrice × Nat :=
  if !enabled || creds.isNone then
    (⟨"namecom", none, "USD", none, none, none, none,
      some "missing_credentials_or_disabled"⟩, 0)
  else
    match oracle 0 with
    | .ok r => (r, 1)
    | .error e => (⟨"namecom", none, "USD", none, none, none, none, some e⟩, 1)

/-! ### Rate limiters — `TokenBucket` and `RateLimiter` -/

/-- The refill of `TokenBucket.acquire`:
`tokens = min(capacity, tokens + elapsed * rps)`. -/
def tbRefill (rps capacity tokens elapsed : Rat) : Rat :=
  min capacity (tokens + elapsed * rps)

/-- One iteration of `TokenBucket.acquire`: refill, then either consume one
token (no sleep) or keep the tokens and sleep
`max(0.05, (1 - tokens) / rps)`. -/
def tokenBucketStep (rps capacity tokens elapsed : Rat) : Rat × Option Rat :=
  let t := tbRefill rps capacity tokens elapsed
  if 1 ≤ t then (t - 1, none) else (t, some (max (1/20) ((1 - t) / rps)))

/-- The `while True` loop of `TokenBucket.acquire`, driven by the successive
elapsed times observed at each iteration; returns the final token count, the
sleeps performed, and whether a token was consumed within the schedule. -/
def tokenBucketAcquire (rps capacity : Rat) : List Rat → Rat → Rat × List Rat × Bool
  | [], tokens => (tokens, [], false)
  | e :: es, tokens =>
    match tokenBucketStep rps capacity tokens e with
    | (t, none) => (t, [], true)
    | (t, some s) =>
      let r := tokenBucketAcquire rps capacity es t
      (r.1, s :: r.2.1, r.2.2)

/-- `RateLimiter.acquire` in `pricing.py`: no token state; a single sleep of
`min_interval - elapsed` when the elapsed time since the last call is below
`1 / rps`, nothing otherwise.  Returns the sleep duration. -/
def rateLimiterAcquire (rps lastCall now : Rat) : Rat :=
  if rps ≤ 0 then 0
  else if now - lastCall < 1 / rps then 1 / rps - (now - lastCall) else 0

/-! ## Helper lemmas and theorems -/

/-- The `available` value `get` reads back after `set` stored `v`. -/
def availNorm : AvailVal → Option Bool
  | .vNone => none
  | v => some (pyTruthy v)

lemma cache_get_set_same (c : DomainCache) (d : String) (v : AvailVal)
    (p : Option Rat) (pr er : Option String) :
    DomainCache.get (DomainCache.set c d v p pr er) d
      = some ⟨availNorm v, p, pr, er⟩ := by
  cases v with
  | vNone => simp [DomainCache.get, DomainCache.set, DomainCache.find, availNorm]
  | vBool b =>
    cases b <;>
      simp [DomainCache.get, DomainCache.set, DomainCache.find, availNorm, pyTruthy]
  | vInt i =>
    by_cases hi : i = 0 <;>
      simp [DomainCache.get, DomainCache.set, DomainCache.find, availNorm, pyTruthy, hi]
  | vStr s =>
    by_cases hs : s = "" <;>
      simp [DomainCache.get, DomainCache.set, DomainCache.find, availNorm, pyTruthy, hs]

lemma cache_get_set_ne (c : DomainCache) (d d₀ : String) (v : AvailVal)
    (p : Option Rat) (pr er : Option String) (hne : d₀ ≠ d) :
    DomainCache.get (DomainCache.set c d₀ v p pr er) d = DomainCache.get c d := by
  simp [DomainCache.get, DomainCache.set, DomainCache.find, hne]

/-- C3: cache round-trip and last-write-wins.  For every domain and every
outcome tuple of the cache's schema (`available` an optional bool), `set`
then `get` returns exactly the tuple that was stored, and a second `set` on
the same domain overwrites the first (unconditional upsert). -/
theorem cache_roundtrip_upsert (c : DomainCache) (d : String)
    (a : Option Bool) (p : Option Rat) (pr er : Option String)
    (a₂ : Option Bool) (p₂ : Option Rat) (pr₂ er₂ : Option String) :
    DomainCache.get (DomainCache.set c d (AvailVal.ofOptBool a) p pr er) d
      = some ⟨a, p, pr, er⟩
    ∧ DomainCache.get
        (DomainCache.set (DomainCache.set c d (AvailVal.ofOptBool a) p pr er)
          d (AvailVal.ofOptBool a₂) p₂ pr₂ er₂) d
      = some ⟨a₂, p₂, pr₂, er₂⟩ := by
  have hnorm : ∀ a₀ : Option Bool, availNorm (AvailVal.ofOptBool a₀) = a₀ := by
    intro a₀
    cases a₀ with
    | none => rfl
    | some b => cases b <;> rfl
  constructor
  · rw [cache_get_set_same]
    simp [hnorm]
  · rw [cache_get_set_same]
    simp [hnorm]

/-- C10: the cache normalizes `available` instead of storing it verbatim.
After `set`, `get` returns `None` for a `None` input and the Python
truthiness of any other input (so only `None`, `True` or `False` ever comes
back), and reading back the original value exactly is possible precisely when
the input already was `None` or a bool. -/
theorem cache_available_normalized (c : DomainCache) (d : String)
    (v : AvailVal) (p : Option Rat) (pr er : Option String) :
    DomainCache.get (DomainCache.set c d v p pr er) d
      = some ⟨availNorm v, p, pr, er⟩
    ∧ (availNorm v = match v with | .vNone => none | w => some (pyTruthy w))
    ∧ (AvailVal.ofOptBool (availNorm v) = v
        ↔ v = .vNone ∨ ∃ b, v = .vBool b) := by
  refine ⟨cache_get_set_same c d v p pr er, by cases v <;> rfl, ?_⟩
  constructor
  · intro h
    cases v with
    | vNone => exact Or.inl rfl
    | vBool b => exact Or.inr ⟨b, rfl⟩
    | vInt i => simp [availNorm, AvailVal.ofOptBool] at h
    | vStr s => simp [availNorm, AvailVal.ofOptBool] at h
  · rintro (rfl | ⟨b, rfl⟩)
    · rfl
    · rfl

/-! ### Price comparison lemmas (C2) -/

lemma pickMin_mem (acc : RegistrarPrice) (l : List RegistrarPrice) :
    pickMin acc l = acc ∨ pickMin acc l ∈ l := by
  induction l generalizing acc with
  | nil => exact Or.inl rfl
  | cons q qs ih =>
    simp only [pickMin]
    by_cases hlt : priceKey q < priceKey acc
    · rw [if_pos hlt]
      rcases ih q with h | h
      · rw [h]; right; exact List.mem_cons_self q qs
      · right; exact List.mem_cons_of_mem q h
    · rw [if_neg hlt]
      rcases ih acc with h | h
      · exact Or.inl h
      · right; exact List.mem_cons_of_mem q h

lemma pickMin_le_acc (acc : RegistrarPrice) (l : List RegistrarPrice) :
    priceKey (pickMin acc l) ≤ priceKey acc := by
  induction l generalizing acc with
  | nil => simp [pickMin]
  | cons q qs ih =>
    simp only [pickMin]
    refine le_trans (ih _) ?_
    by_cases hlt : priceKey q < priceKey acc
    · simpa [hlt] using le_of_lt hlt
    · simp [hlt]

lemma pickMin_le_mem (acc : RegistrarPrice) (l : List RegistrarPrice) :
    ∀ p ∈ l, priceKey (pickMin acc l) ≤ priceKey p := by
  induction l generalizing acc with
  | nil => simp
  | cons q qs ih =>
    intro p hp
    rcases List.mem_cons.mp hp with rfl | hp₂
    · simp only [pickMin]
      refine le_trans (pickMin_le_acc _ _) ?_
      by_cases hlt : priceKey p < priceKey acc
      · simp [hlt]
      · simpa [hlt] using le_of_not_lt hlt
    · exact ih _ p hp₂

/-- A registrar price used in concrete instances below. -/
def rpX : RegistrarPrice := ⟨"regx", some 5, "USD", some true, none, none, none, none⟩

/-- C2 counterexample: `best_price` IS independently settable.  A
`PriceComparison` constructed with an explicitly supplied `best_price` keeps
it even when no entry of `prices` qualifies, so recomputing the derivation
from the stored (empty) price list does not reproduce the stored value. -/
theorem priceComparison_best_settable_cex :
    (mkPriceComparison "d.com" [] (some rpX)).best_price = some rpX
    ∧ bestPriceCalc (mkPriceComparison "d.com" [] (some rpX)).prices = none := by
  constructor <;> rfl

/-- C2 (amended): for a `PriceComparison` constructed without an explicit
`best_price` — as every call site in the repository does — the stored
`best_price` equals the derivation from `prices`: absent exactly when no entry
has a present price and a true availability, and otherwise a qualifying entry
of minimum price; recomputing the derivation from the stored list reproduces
the stored value. -/
theorem priceComparison_best_derived (d : String) (prices : List RegistrarPrice) :
    (mkPriceComparison d prices none).best_price = bestPriceCalc prices
    ∧ bestPriceCalc (mkPriceComparison d prices none).prices
        = (mkPriceComparison d prices none).best_price
    ∧ (bestPriceCalc prices = none ↔ qualifying prices = [])
    ∧ ∀ b, bestPriceCalc prices = some b →
        b ∈ qualifying prices ∧ ∀ p ∈ qualifying prices, priceKey b ≤ priceKey p := by
  have hbest : (mkPriceComparison d prices none).best_price = bestPriceCalc prices := by
    by_cases hp : prices = []
    · subst hp; rfl
    · simp [mkPriceComparison, List.isEmpty_iff, hp]
  have hprices : (mkPriceComparison d prices none).prices = prices := by
    by_cases hp : prices = []
    · subst hp; rfl
    · simp [mkPriceComparison, List.isEmpty_iff, hp]
  refine ⟨hbest, by rw [hprices, hbest], ?_, ?_⟩
  · cases hq : qualifying prices with
    | nil => simp [bestPriceCalc, hq]
    | cons p ps => simp [bestPriceCalc, hq]
  · intro b hb
    cases hq : qualifying prices with
    | nil => simp [bestPriceCalc, hq] at hb
    | cons p ps =>
      rw [bestPriceCalc, hq] at hb
      injection hb with hb
      subst hb
      constructor
      · rcases pickMin_mem p ps with h | h
        · rw [h]; exact List.mem_cons_self p ps
        · exact List.mem_cons_of_mem p h
      · intro q hq₂
        rcases List.mem_cons.mp hq₂ with heq | hmem
        · rw [heq]; exact pickMin_le_acc p ps
        · exact pickMin_le_mem p ps q hmem

/-- Registrar prices mirroring the two-provider end-to-end scenario. -/
def rpA : RegistrarPrice := ⟨"a", some 16, "USD", some true, none, none, none, none⟩

def rpB : RegistrarPrice := ⟨"b", some 13, "USD", some true, none, none, none, none⟩

/-- Witness for the amended C2 theorem at a concrete two-entry price list. -/
theorem priceComparison_best_derived_witness :
    rpB ∈ qualifying [rpA, rpB]
    ∧ ∀ p ∈ qualifying [rpA, rpB], priceKey rpB ≤ priceKey p :=
  (priceComparison_best_derived "d.com" [rpA, rpB]).2.2.2 rpB (by decide)

/-! ### MCP batch client (C5) -/

/-- Twenty-five distinct domains, as in the spec's batch scenario. -/
def domains25 : List String :=
  ["d01.com", "d02.com", "d03.com", "d04.com", "d05.com",
   "d06.com", "d07.com", "d08.com", "d09.com", "d10.com",
   "d11.com", "d12.com", "d13.com", "d14.com", "d15.com",
   "d16.com", "d17.com", "d18.com", "d19.com", "d20.com",
   "d21.com", "d22.com", "d23.com", "d24.com", "d25.com"]

/-- A server that answers every domain it is actually sent, first try. -/
def serverAll : Nat → List String → Except String (List MCPDomainResult) :=
  fun _ ds => .ok (ds.map fun d => ⟨d, some true, none, none⟩)

/-- C5: evaluation at the failing input.  `check_domains_batch` given 25
domains with chunk size 20 sends exactly ONE request carrying only the first
20 domains — it truncates instead of splitting into two chunk calls of 20 and
5 — and the wrapper pads the 5 silently dropped domains with
`missing_result` even though the provider answered everything it was sent.
The output length and order guarantees do hold. -/
theorem mcp_batch_truncation_bug :
    (fetchMcpBatch true (some "key") 20 serverAll domains25).2
      = [domains25.take 20]
    ∧ (fetchMcpBatch true (some "key") 20 serverAll domains25).2.length = 1
    ∧ (fetchMcpBatch true (some "key") 20 serverAll domains25).1.length = 25
    ∧ (∀ r ∈ (fetchMcpBatch true (some "key") 20 serverAll domains25).1.drop 20,
        r = missingResult)
    ∧ (∀ r ∈ (fetchMcpBatch true (some "key") 20 serverAll domains25).1.take 20,
        r.error = none ∧ r.available = some true) := by
  decide

/-! ### Provider retry and credential gating (C6, C7) -/

/-- A successful Name.com price, used to show a retry would have succeeded. -/
def rpGood : RegistrarPrice :=
  ⟨"namecom", some (1299/100), "USD", some true, none, none, none, none⟩

/-- An attempt oracle with one transient failure followed by success. -/
def priceOracleTransient : Nat → Except String RegistrarPrice :=
  fun n => if n = 0 then .error "timeout" else .ok rpGood

/-- C6 counterexample: the pricing client `get_namecom_price` does NOT retry.
Under a single transient failure it returns the error outcome after exactly
one attempt, although the very next attempt would have succeeded — so the
claim that every provider client retries with the 0/0.5/1/2 backoff schedule
is false. -/
theorem pricing_client_no_retry_cex :
    getNamecomPrice true (some ("user", "token")) priceOracleTransient
      = (⟨"namecom", none, "USD", none, none, none, none, some "timeout"⟩, 1)
    ∧ priceOracleTransient 1 = .ok rpGood := by
  constructor <;> rfl

/-- C6 (amended): the availability clients `_fetch_namecom` and
`_fetch_domainr` retry with the backoff schedule 0, 0.5s, 1s, 2s (four
attempts, three sleeps) and, after exhausting it, return an outcome with
`error = "request_failed"` and all value fields absent; the pricing client
`get_namecom_price` makes a single attempt and converts its failure into an
error-valued outcome.  In all cases the failure is returned as a value,
never propagated. -/
theorem provider_retry_policy (c : String × String) (k : String)
    (oracle : Nat → Except String ProviderResponse)
    (po : Nat → Except String RegistrarPrice) (e : String)
    (hfail : ∀ n, ∃ err, oracle n = Except.error err)
    (hpo : po 0 = Except.error e) :
    fetchNamecom (some c) oracle
      = (⟨none, none, "name.com", some "request_failed", none⟩, 4, [1/2, 1, 2])
    ∧ fetchDomainr (some k) oracle
      = (⟨none, none, "domainr", some "request_failed", none⟩, 4, [1/2, 1, 2])
    ∧ getNamecomPrice true (some c) po
      = (⟨"namecom", none, "USD", none, none, none, none, some e⟩, 1) := by
  obtain ⟨e₀, h₀⟩ := hfail 0
  obtain ⟨e₁, h₁⟩ := hfail 1
  obtain ⟨e₂, h₂⟩ := hfail 2
  obtain ⟨e₃, h₃⟩ := hfail 3
  have hrun : runRetries oracle [0, 1/2, 1, 2] 0 [] = (none, 4, [1/2, 1, 2]) := by
    simp only [runRetries, h₀, h₁, h₂, h₃]
    norm_num
  refine ⟨?_, ?_, ?_⟩
  · show (match runRetries oracle ([0] ++ retryBackoff) 0 [] with
      | (some r, k, s) => (r, k, s)
      | (none, k, s) =>
        ((⟨none, none, "name.com", some "request_failed", none⟩ :
          ProviderResponse), k, s)) = _
    rw [show ([0] ++ retryBackoff : List Rat) = [0, 1/2, 1, 2] from rfl, hrun]
  · show (match runRetries oracle ([0] ++ retryBackoff) 0 [] with
      | (some r, k, s) => (r, k, s)
      | (none, k, s) =>
        ((⟨none, none, "domainr", some "request_failed", none⟩ :
          ProviderResponse), k, s)) = _
    rw [show ([0] ++ retryBackoff : List Rat) = [0, 1/2, 1, 2] from rfl, hrun]
  · simp [getNamecomPrice, hpo]

/-- Witness for the amended C6 theorem with a persistently failing oracle. -/
theorem provider_retry_policy_witness :
    fetchNamecom (some ("u", "t")) (fun _ => Except.error "boom")
      = (⟨none, none, "name.com", some "request_failed", none⟩, 4, [1/2, 1, 2])
    ∧ fetchDomainr (some "key") (fun _ => Except.error "boom")
      = (⟨none, none, "domainr", some "request_failed", none⟩, 4, [1/2, 1, 2])
    ∧ getNamecomPrice true (some ("u", "t")) (fun _ => Except.error "boom")
      = (⟨"namecom", none, "USD", none, none, none, none, some "boom"⟩, 1) :=
  provider_retry_policy ("u", "t") "key" (fun _ => Except.error "boom")
    (fun _ => Except.error "boom") "boom" (fun _ => ⟨"boom", rfl⟩) rfl

/-- A never-consulted attempt oracle for credential-gate statements. -/
def availOracleAny : Nat → Except String ProviderResponse :=
  fun _ => Except.error "unreachable"

/-- C7 counterexample: with credentials absent, `_fetch_namecom` returns
immediately with error `"missing_namecom_keys"`, not the claimed
`"missing_credentials_or_disabled"` (it does make zero attempts and zero
sleeps). -/
theorem missing_creds_error_string_cex :
    (fetchNamecom none availOracleAny).1.error = some "missing_namecom_keys"
    ∧ (fetchNamecom none availOracleAny).1.error
        ≠ some "missing_credentials_or_disabled"
    ∧ (fetchNamecom none availOracleAny).2 = (0, []) := by
  refine ⟨rfl, ?_, rfl⟩
  decide

/-- C7 (amended): with credentials absent or the provider disabled, every
client returns immediately — zero attempts, zero sleeps, no network call.
The pricing clients use `error = "missing_credentials_or_disabled"`; the
availability clients use `"missing_namecom_keys"` / `"missing_domainr_key"`
respectively. -/
theorem missing_credentials_immediate (enabled : Bool)
    (creds : Option (String × String))
    (oracle : Nat → Except String ProviderResponse)
    (po : Nat → Except String RegistrarPrice)
    (hgate : enabled = false ∨ creds = none) :
    getNamecomPrice enabled creds po
      = (⟨"namecom", none, "USD", none, none, none, none,
          some "missing_credentials_or_disabled"⟩, 0)
    ∧ fetchNamecom none oracle
      = (⟨none, none, "stub", some "missing_namecom_keys", none⟩, 0, [])
    ∧ fetchDomainr none oracle
      = (⟨none, none, "stub", some "missing_domainr_key", none⟩, 0, []) := by
  refine ⟨?_, rfl, rfl⟩
  rcases hgate with h | h
  · subst h; rfl
  · subst h; simp [getNamecomPrice]

/-- Witness for the amended C7 theorem with the disabled flag set. -/
theorem missing_credentials_immediate_witness :
    getNamecomPrice false (some ("u", "t")) (fun _ => Except.error "boom")
      = (⟨"namecom", none, "USD", none, none, none, none,
          some "missing_credentials_or_disabled"⟩, 0)
    ∧ fetchNamecom none availOracleAny
      = (⟨none, none, "stub", some "missing_namecom_keys", none⟩, 0, [])
    ∧ fetchDomainr none availOracleAny
      = (⟨none, none, "stub", some "missing_domainr_key", none⟩, 0, []) :=
  missing_credentials_immediate false (some ("u", "t")) availOracleAny
    (fun _ => Except.error "boom") (Or.inl rfl)

/-! ### Rate limiters (C9) -/

lemma tokenBucketStep_eq_of_ge (rps capacity tks e : Rat)
    (h1 : 1 ≤ tbRefill rps capacity tks e) :
    tokenBucketStep rps capacity tks e = (tbRefill rps capacity tks e - 1, none) := by
  simp [tokenBucketStep, h1]

lemma tokenBucketStep_eq_of_lt (rps capacity tks e : Rat)
    (h1 : ¬ 1 ≤ tbRefill rps capacity tks e) :
    tokenBucketStep rps capacity tks e
      = (tbRefill rps capacity tks e,
        some (max (1/20) ((1 - tbRefill rps capacity tks e) / rps))) := by
  simp [tokenBucketStep, h1]

lemma tokenBucketAcquire_cons_none (rps capacity tks e t₀ : Rat) (es : List Rat)
    (h : tokenBucketStep rps capacity tks e = (t₀, none)) :
    tokenBucketAcquire rps capacity (e :: es) tks = (t₀, [], true) := by
  show (match tokenBucketStep rps capacity tks e with
    | (t, none) => (t, [], true)
    | (t, some s) =>
      let r := tokenBucketAcquire rps capacity es t
      (r.1, s :: r.2.1, r.2.2)) = (t₀, [], true)
  rw [h]

lemma tokenBucketAcquire_cons_some (rps capacity tks e t₀ s₀ : Rat) (es : List Rat)
    (h : tokenBucketStep rps capacity tks e = (t₀, some s₀)) :
    tokenBucketAcquire rps capacity (e :: es) tks
      = ((tokenBucketAcquire rps capacity es t₀).1,
         s₀ :: (tokenBucketAcquire rps capacity es t₀).2.1,
         (tokenBucketAcquire rps capacity es t₀).2.2) := by
  show (match tokenBucketStep rps capacity tks e with
    | (t, none) => (t, [], true)
    | (t, some s) =>
      let r := tokenBucketAcquire rps capacity es t
      (r.1, s :: r.2.1, r.2.2)) = _
  rw [h]

lemma tokenBucketAcquire_sleeps_floor (rps capacity : Rat) (sched : List Rat) :
    ∀ (tks : Rat) (s : Rat),
      s ∈ (tokenBucketAcquire rps capacity sched tks).2.1 → (1/20 : Rat) ≤ s := by
  induction sched with
  | nil =>
    intro tks s hs
    exact absurd hs (List.not_mem_nil s)
  | cons e es ih =>
    intro tks s hs
    by_cases h1 : 1 ≤ tbRefill rps capacity tks e
    · rw [tokenBucketAcquire_cons_none rps capacity tks e _ es
        (tokenBucketStep_eq_of_ge rps capacity tks e h1)] at hs
      exact absurd hs (List.not_mem_nil s)
    · rw [tokenBucketAcquire_cons_some rps capacity tks e _ _ es
        (tokenBucketStep_eq_of_lt rps capacity tks e h1)] at hs
      rcases List.mem_cons.mp hs with heq | hmem
      · rw [heq]; exact le_max_left _ _
      · exact ih _ s hmem

/-- C9 counterexample: the pricing `RateLimiter` does not implement the
token-bucket contract.  At `rps = 2` with `0.49s` elapsed since the last
call, it sleeps exactly `0.01s` — a positive sleep strictly below the `50ms`
minimum-sleep floor the claimed contract imposes on every sleep — and it has
no token state at all. -/
theorem rateLimiter_below_floor_cex :
    rateLimiterAcquire 2 0 (49/100) = 1/100
    ∧ 0 < rateLimiterAcquire 2 0 (49/100)
    ∧ rateLimiterAcquire 2 0 (49/100) < 1/20 := by
  refine ⟨?_, ?_, ?_⟩ <;> norm_num [rateLimiterAcquire]

/-- C9 (amended): `TokenBucket.acquire` in `domain_check.py` does implement
the token-bucket contract: each iteration first refills the token count by
`elapsed * rps` clamped to the capacity (the count stays within `[0, B]`),
consumes exactly one token and returns when at least one is available, and
otherwise keeps the tokens and sleeps `max(0.05, (1 - tokens) / rps)`; every
sleep the acquire loop performs is at least `0.05s`.  The per-registrar
`RateLimiter` in `pricing.py` instead enforces a minimum spacing of
`1 / rps` seconds with a single floor-less sleep. -/
theorem tokenBucket_contract (rps capacity tokens elapsed : Rat)
    (hr : 0 < rps) (h0 : 0 ≤ tokens) (hc : tokens ≤ capacity) (he : 0 ≤ elapsed) :
    (0 ≤ tbRefill rps capacity tokens elapsed
      ∧ tbRefill rps capacity tokens elapsed ≤ capacity)
    ∧ ((tokenBucketStep rps capacity tokens elapsed).2 = none
        ↔ 1 ≤ tbRefill rps capacity tokens elapsed)
    ∧ (1 ≤ tbRefill rps capacity tokens elapsed →
        (tokenBucketStep rps capacity tokens elapsed).1
          = tbRefill rps capacity tokens elapsed - 1)
    ∧ (∀ s, (tokenBucketStep rps capacity tokens elapsed).2 = some s →
        (1/20 : Rat) ≤ s
        ∧ (tokenBucketStep rps capacity tokens elapsed).1
            = tbRefill rps capacity tokens elapsed)
    ∧ (∀ (sched : List Rat) (tks s : Rat),
        s ∈ (tokenBucketAcquire rps capacity sched tks).2.1 → (1/20 : Rat) ≤ s)
    ∧ (rateLimiterAcquire rps 0 elapsed
        = if elapsed < 1 / rps then 1 / rps - elapsed else 0) := by
  refine ⟨⟨?_, min_le_left _ _⟩, ?_, ?_, ?_, ?_, ?_⟩
  · exact le_min (le_trans h0 hc) (add_nonneg h0 (mul_nonneg he hr.le))
  · by_cases h1 : 1 ≤ tbRefill rps capacity tokens elapsed
    · simp [tokenBucketStep, h1]
    · simp [tokenBucketStep, h1]
  · intro h1
    simp [tokenBucketStep, h1]
  · intro s hs
    by_cases h1 : 1 ≤ tbRefill rps capacity tokens elapsed
    · simp [tokenBucketStep, h1] at hs
    · rw [tokenBucketStep_eq_of_lt rps capacity tokens elapsed h1] at hs
      have hs₂ : max (1/20 : Rat)
          ((1 - tbRefill rps capacity tokens elapsed) / rps) = s :=
        Option.some.inj hs
      rw [tokenBucketStep_eq_of_lt rps capacity tokens elapsed h1]
      exact ⟨hs₂ ▸ le_max_left _ _, rfl⟩
  · exact fun sched tks s hs => tokenBucketAcquire_sleeps_floor rps capacity sched tks s hs
  · rw [rateLimiterAcquire, if_neg (not_le.mpr hr)]
    simp

/-- Witness for the amended C9 theorem at `rps = 3`, `capacity = 5`,
a full bucket and no elapsed time. -/
theorem tokenBucket_contract_witness :
    ((0 : Rat) ≤ tbRefill 3 5 5 0 ∧ tbRefill 3 5 5 0 ≤ 5)
    ∧ ((tokenBucketStep 3 5 5 0).2 = none ↔ 1 ≤ tbRefill 3 5 5 0)
    ∧ (1 ≤ tbRefill 3 5 5 0 → (tokenBucketStep 3 5 5 0).1 = tbRefill 3 5 5 0 - 1)
    ∧ (∀ s, (tokenBucketStep 3 5 5 0).2 = some s →
        (1/20 : Rat) ≤ s ∧ (tokenBucketStep 3 5 5 0).1 = tbRefill 3 5 5 0)
    ∧ (∀ (sched : List Rat) (tks s : Rat),
        s ∈ (tokenBucketAcquire 3 5 sched tks).2.1 → (1/20 : Rat) ≤ s)
    ∧ (rateLimiterAcquire 3 0 0 = if (0 : Rat) < 1 / 3 then 1 / 3 - 0 else 0) :=
  tokenBucket_contract 3 5 5 0 (by norm_num) (by norm_num) (by norm_num)
    (by norm_num)

/-! ### Orchestrator lemmas (C1, C4, C8) -/

lemma stepDomain_hit (maxCalls : Nat) (cache : DomainCache) (st : PassState)
    (nd : String × String) (g : CacheGot)
    (h : DomainCache.get cache nd.2 = some g) :
    stepDomain maxCalls cache st nd
      = ⟨st.results ++ [(nd.1, nd.2, cachedDCR nd.2 g)], st.toCheck, st.callsMade⟩ := by
  show (match DomainCache.get cache nd.2 with
    | some g =>
      ({ st with results := st.results ++ [(nd.1, nd.2, cachedDCR nd.2 g)] } : PassState)
    | none =>
      if maxCalls ≤ st.callsMade then
        { st with results := st.results ++ [(nd.1, nd.2, quotaDCR nd.2)] }
      else
        { st with toCheck := st.toCheck ++ [nd], callsMade := st.callsMade + 1 }) = _
  rw [h]

lemma stepDomain_quota (maxCalls : Nat) (cache : DomainCache) (st : PassState)
    (nd : String × String) (h : DomainCache.get cache nd.2 = none)
    (hq : maxCalls ≤ st.callsMade) :
    stepDomain maxCalls cache st nd
      = ⟨st.results ++ [(nd.1, nd.2, quotaDCR nd.2)], st.toCheck, st.callsMade⟩ := by
  show (match DomainCache.get cache nd.2 with
    | some g =>
      ({ st with results := st.results ++ [(nd.1, nd.2, cachedDCR nd.2 g)] } : PassState)
    | none =>
      if maxCalls ≤ st.callsMade then
        { st with results := st.results ++ [(nd.1, nd.2, quotaDCR nd.2)] }
      else
        { st with toCheck := st.toCheck ++ [nd], callsMade := st.callsMade + 1 }) = _
  rw [h]
  simp [hq]

lemma stepDomain_dispatch (maxCalls : Nat) (cache : DomainCache) (st : PassState)
    (nd : String × String) (h : DomainCache.get cache nd.2 = none)
    (hq : ¬ maxCalls ≤ st.callsMade) :
    stepDomain maxCalls cache st nd
      = ⟨st.results, st.toCheck ++ [nd], st.callsMade + 1⟩ := by
  show (match DomainCache.get cache nd.2 with
    | some g =>
      ({ st with results := st.results ++ [(nd.1, nd.2, cachedDCR nd.2 g)] } : PassState)
    | none =>
      if maxCalls ≤ st.callsMade then
        { st with results := st.results ++ [(nd.1, nd.2, quotaDCR nd.2)] }
      else
        { st with toCheck := st.toCheck ++ [nd], callsMade := st.callsMade + 1 }) = _
  rw [h]
  simp [hq]

/-- Each admission step only appends to `results` and `toCheck` and never
decreases `callsMade`; membership in either list is preserved. -/
lemma stepDomain_mono (maxCalls : Nat) (cache : DomainCache) (st : PassState)
    (nd : String × String) :
    (∀ x ∈ st.results, x ∈ (stepDomain maxCalls cache st nd).results)
    ∧ (∀ x ∈ st.toCheck, x ∈ (stepDomain maxCalls cache st nd).toCheck) := by
  cases hg : DomainCache.get cache nd.2 with
  | some g =>
    rw [stepDomain_hit maxCalls cache st nd g hg]
    exact ⟨fun x hx => List.mem_append_left _ hx, fun x hx => hx⟩
  | none =>
    by_cases hq : maxCalls ≤ st.callsMade
    · rw [stepDomain_quota maxCalls cache st nd hg hq]
      exact ⟨fun x hx => List.mem_append_left _ hx, fun x hx => hx⟩
    · rw [stepDomain_dispatch maxCalls cache st nd hg hq]
      exact ⟨fun x hx => hx, fun x hx => List.mem_append_left _ hx⟩

lemma firstPassAux_results_mono (maxCalls : Nat) (cache : DomainCache)
    (pairs : List (String × String)) :
    ∀ (st : PassState) (x : String × String × DomainCheckResult), x ∈ st.results →
      x ∈ (pairs.foldl (stepDomain maxCalls cache) st).results := by
  induction pairs with
  | nil => intro st x hx; exact hx
  | cons q qs ih =>
    intro st x hx
    rw [List.foldl_cons]
    exact ih _ x ((stepDomain_mono maxCalls cache st q).1 x hx)

lemma firstPassAux_toCheck_mono (maxCalls : Nat) (cache : DomainCache)
    (pairs : List (String × String)) :
    ∀ (st : PassState) (x : String × String), x ∈ st.toCheck →
      x ∈ (pairs.foldl (stepDomain maxCalls cache) st).toCheck := by
  induction pairs with
  | nil => intro st x hx; exact hx
  | cons q qs ih =>
    intro st x hx
    rw [List.foldl_cons]
    exact ih _ x ((stepDomain_mono maxCalls cache st q).2 x hx)

/-- A cache-hit pair always lands in the results with exactly its cached
outcome. -/
lemma firstPassAux_hit_mem (maxCalls : Nat) (cache : DomainCache)
    (pairs : List (String × String)) :
    ∀ (st : PassState) (p : String × String) (g : CacheGot), p ∈ pairs →
      DomainCache.get cache p.2 = some g →
      (p.1, p.2, cachedDCR p.2 g) ∈ (pairs.foldl (stepDomain maxCalls cache) st).results := by
  induction pairs with
  | nil => intro st p g hp; exact absurd hp (List.not_mem_nil p)
  | cons q qs ih =>
    intro st p g hp hg
    rw [List.foldl_cons]
    rcases List.mem_cons.mp hp with heq | hmem
    · subst heq
      refine firstPassAux_results_mono maxCalls cache qs _ _ ?_
      rw [stepDomain_hit maxCalls cache st p g hg]
      exact List.mem_append_right _ (List.mem_singleton.mpr rfl)
    · exact ih _ p g hmem hg

/-- Only cache-miss pairs are ever enqueued for live resolution. -/
lemma firstPassAux_toCheck_miss (maxCalls : Nat) (cache : DomainCache)
    (pairs : List (String × String)) :
    ∀ (st : PassState), (∀ q ∈ st.toCheck, DomainCache.get cache q.2 = none) →
      ∀ q ∈ (pairs.foldl (stepDomain maxCalls cache) st).toCheck,
        DomainCache.get cache q.2 = none := by
  induction pairs with
  | nil => intro st hinv; exact hinv
  | cons p ps ih =>
    intro st hinv
    rw [List.foldl_cons]
    refine ih _ ?_
    cases hg : DomainCache.get cache p.2 with
    | some g =>
      rw [stepDomain_hit maxCalls cache st p g hg]
      exact hinv
    | none =>
      by_cases hq : maxCalls ≤ st.callsMade
      · rw [stepDomain_quota maxCalls cache st p hg hq]
        exact hinv
      · rw [stepDomain_dispatch maxCalls cache st p hg hq]
        intro q hqm
        rcases List.mem_append.mp hqm with hmem | hone
        · exact hinv q hmem
        · rw [List.mem_singleton.mp hone]
          exact hg

/-- The quota counter counts exactly the enqueued pairs. -/
lemma firstPassAux_calls_eq (maxCalls : Nat) (cache : DomainCache)
    (pairs : List (String × String)) :
    ∀ (st : PassState), st.callsMade = st.toCheck.length →
      (pairs.foldl (stepDomain maxCalls cache) st).callsMade
        = (pairs.foldl (stepDomain maxCalls cache) st).toCheck.length := by
  induction pairs with
  | nil => intro st hinv; exact hinv
  | cons p ps ih =>
    intro st hinv
    rw [List.foldl_cons]
    refine ih _ ?_
    cases hg : DomainCache.get cache p.2 with
    | some g => rw [stepDomain_hit maxCalls cache st p g hg]; exact hinv
    | none =>
      by_cases hq : maxCalls ≤ st.callsMade
      · rw [stepDomain_quota maxCalls cache st p hg hq]; exact hinv
      · rw [stepDomain_dispatch maxCalls cache st p hg hq]
        simp [hinv]

/-- Every visited pair ends up either with a result from the admission pass
or enqueued for live resolution. -/
lemma firstPassAux_covered (maxCalls : Nat) (cache : DomainCache)
    (pairs : List (String × String)) :
    ∀ (st : PassState) (p : String × String), p ∈ pairs →
      (∃ dcr, (p.1, p.2, dcr) ∈ (pairs.foldl (stepDomain maxCalls cache) st).results)
      ∨ p ∈ (pairs.foldl (stepDomain maxCalls cache) st).toCheck := by
  induction pairs with
  | nil => intro st p hp; exact absurd hp (List.not_mem_nil p)
  | cons q qs ih =>
    intro st p hp
    rw [List.foldl_cons]
    rcases List.mem_cons.mp hp with heq | hmem
    · subst heq
      cases hg : DomainCache.get cache p.2 with
      | some g =>
        left
        refine ⟨cachedDCR p.2 g, firstPassAux_results_mono maxCalls cache qs _ _ ?_⟩
        rw [stepDomain_hit maxCalls cache st p g hg]
        exact List.mem_append_right _ (List.mem_singleton.mpr rfl)
      | none =>
        by_cases hq : maxCalls ≤ st.callsMade
        · left
          refine ⟨quotaDCR p.2, firstPassAux_results_mono maxCalls cache qs _ _ ?_⟩
          rw [stepDomain_quota maxCalls cache st p hg hq]
          exact List.mem_append_right _ (List.mem_singleton.mpr rfl)
        · right
          refine firstPassAux_toCheck_mono maxCalls cache qs _ _ ?_
          rw [stepDomain_dispatch maxCalls cache st p hg hq]
          exact List.mem_append_right _ (List.mem_singleton.mpr rfl)
    · exact ih _ p hmem

/-- Full characterization of the admission pass when every visited pair is a
cache miss: the first `maxCalls - callsMade` pairs are enqueued, the rest all
become quota outcomes. -/
lemma firstPassAux_all_miss (maxCalls : Nat) (cache : DomainCache)
    (pairs : List (String × String)) :
    ∀ (st : PassState), st.callsMade ≤ maxCalls →
      (∀ p ∈ pairs, DomainCache.get cache p.2 = none) →
      pairs.foldl (stepDomain maxCalls cache) st
        = ⟨st.results ++ (pairs.drop (maxCalls - st.callsMade)).map
              (fun p => (p.1, p.2, quotaDCR p.2)),
           st.toCheck ++ pairs.take (maxCalls - st.callsMade),
           min maxCalls (st.callsMade + pairs.length)⟩ := by
  induction pairs with
  | nil =>
    intro st hcm _
    simp [min_eq_right hcm]
  | cons p ps ih =>
    intro st hcm hmiss
    have hp : DomainCache.get cache p.2 = none := hmiss p (List.mem_cons_self p ps)
    have hmiss₂ : ∀ q ∈ ps, DomainCache.get cache q.2 = none :=
      fun q hq => hmiss q (List.mem_cons_of_mem p hq)
    rw [List.foldl_cons]
    by_cases hq : maxCalls ≤ st.callsMade
    · have hzero : maxCalls - st.callsMade = 0 := Nat.sub_eq_zero_of_le hq
      rw [stepDomain_quota maxCalls cache st p hp hq,
        ih ⟨st.results ++ [(p.1, p.2, quotaDCR p.2)], st.toCheck, st.callsMade⟩ hcm hmiss₂]
    /- both sides now enumerate the whole tail as quota outcomes -/
      have hmin₁ : min maxCalls (st.callsMade + ps.length) = maxCalls :=
        min_eq_left (le_trans hq (Nat.le_add_right _ _))
      have hmin₂ : min maxCalls (st.callsMade + (ps.length + 1)) = maxCalls :=
        min_eq_left (le_trans hq (Nat.le_add_right _ _))
      simp [hzero, hmin₁, hmin₂]
    · have hlt : st.callsMade < maxCalls := lt_of_not_le hq
      have hsub : maxCalls - st.callsMade = (maxCalls - (st.callsMade + 1)) + 1 := by
        omega
      rw [stepDomain_dispatch maxCalls cache st p hp hq,
        ih ⟨st.results, st.toCheck ++ [p], st.callsMade + 1⟩ hlt hmiss₂]
      have hsum : st.callsMade + 1 + ps.length = st.callsMade + (ps.length + 1) := by
        omega
      simp [hsub, hsum, List.append_assoc]

/-- The triple a resolved pair contributes to the final result list. -/
def resolveEntry (oracle : String → Except String ProviderResponse)
    (nd : String × String) : String × String × DomainCheckResult :=
  (nd.1, nd.2, resolvedDCR oracle nd)

lemma resolveStep_eq (oracle : String → Except String ProviderResponse)
    (res : List (String × String × DomainCheckResult)) (c : DomainCache)
    (nd : String × String) :
    resolveStep oracle (res, c) nd
      = (res ++ [resolveEntry oracle nd],
        DomainCache.set c nd.2
          (AvailVal.ofOptBool (resolvedDCR oracle nd).available)
          (resolvedDCR oracle nd).registrar_price_usd
          (resolvedDCR oracle nd).provider (resolvedDCR oracle nd).error) := rfl

/-- The resolution phase emits exactly one entry per enqueued pair, in
order. -/
lemma resolveAux_results (oracle : String → Except String ProviderResponse)
    (l : List (String × String)) :
    ∀ (res : List (String × String × DomainCheckResult)) (c : DomainCache),
      (l.foldl (resolveStep oracle) (res, c)).1
        = res ++ l.map (resolveEntry oracle) := by
  induction l with
  | nil => intro res c; simp
  | cons nd l₂ ih =>
    intro res c
    rw [List.foldl_cons, resolveStep_eq, ih]
    simp

/-- The resolution phase does not touch cache entries of domains it was not
asked to resolve. -/
lemma resolveAux_cache_preserved (oracle : String → Except String ProviderResponse)
    (l : List (String × String)) :
    ∀ (res : List (String × String × DomainCheckResult)) (c : DomainCache)
      (d : String), (∀ q ∈ l, q.2 ≠ d) →
      DomainCache.get (l.foldl (resolveStep oracle) (res, c)).2 d
        = DomainCache.get c d := by
  induction l with
  | nil => intro res c d _; rfl
  | cons nd l₂ ih =>
    intro res c d hne
    rw [List.foldl_cons, resolveStep_eq]
    rw [ih _ _ d (fun q hq => hne q (List.mem_cons_of_mem nd hq))]
    exact cache_get_set_ne c d nd.2 _ _ _ _ (hne nd (List.mem_cons_self nd l₂))

/-- C1: with a quota ceiling `maxCalls`, a batch of all-cache-miss distinct
domains has exactly `maxCalls` pairs dispatched for live resolution; every
remaining pair receives the synthetic outcome `provider = "quota"`,
`error = "max_calls_reached"` (built in the admission pass, which performs no
provider call), and no quota-blocked domain is ever written to the cache. -/
theorem checkDomains_quota_exact (oracle : String → Except String ProviderResponse)
    (maxCalls : Nat) (cache : DomainCache) (candidates : List (String × List String))
    (hmiss : ∀ p ∈ pairsOf candidates, DomainCache.get cache p.2 = none)
    (hN : maxCalls ≤ (pairsOf candidates).length)
    (hdist : (pairsOf candidates).Pairwise (fun a b => a.2 ≠ b.2)) :
    (firstPass maxCalls cache (pairsOf candidates)).toCheck.length = maxCalls
    ∧ (firstPass maxCalls cache (pairsOf candidates)).results.length
        = (pairsOf candidates).length - maxCalls
    ∧ (∀ e ∈ (firstPass maxCalls cache (pairsOf candidates)).results,
        e.2.2 = quotaDCR e.2.1)
    ∧ (∀ e ∈ (firstPass maxCalls cache (pairsOf candidates)).results,
        DomainCache.get (checkDomains oracle maxCalls cache candidates).2 e.2.1
          = none) := by
  have hchar : firstPass maxCalls cache (pairsOf candidates)
      = ⟨((pairsOf candidates).drop maxCalls).map (fun p => (p.1, p.2, quotaDCR p.2)),
         (pairsOf candidates).take maxCalls,
         min maxCalls (pairsOf candidates).length⟩ := by
    have h := firstPassAux_all_miss maxCalls cache (pairsOf candidates)
      ⟨[], [], 0⟩ (Nat.zero_le _) hmiss
    simpa using h
  have hmemmap : ∀ e ∈ (firstPass maxCalls cache (pairsOf candidates)).results,
      ∃ p, p ∈ (pairsOf candidates).drop maxCalls ∧ (p.1, p.2, quotaDCR p.2) = e := by
    intro e he
    rw [hchar] at he
    exact List.mem_map.mp he
  refine ⟨?_, ?_, ?_, ?_⟩
  · rw [hchar]
    simpa using hN
  · rw [hchar]
    simp
  · intro e he
    obtain ⟨p, _, heq⟩ := hmemmap e he
    rw [← heq]
  · intro e he
    obtain ⟨p, hpdrop, heq⟩ := hmemmap e he
    have hd : e.2.1 = p.2 := by rw [← heq]
    have hsnd : (checkDomains oracle maxCalls cache candidates).2
        = ((firstPass maxCalls cache (pairsOf candidates)).toCheck.foldl
            (resolveStep oracle) ([], cache)).2 := rfl
    rw [hsnd, hd]
    have hne : ∀ q ∈ (firstPass maxCalls cache (pairsOf candidates)).toCheck,
        q.2 ≠ p.2 := by
      intro q hq
      rw [hchar] at hq
      have hsplit := hdist
      rw [← List.take_append_drop maxCalls (pairsOf candidates)] at hsplit
      exact (List.pairwise_append.mp hsplit).2.2 q hq p hpdrop
    rw [resolveAux_cache_preserved oracle _ [] cache p.2 hne]
    refine hmiss p ?_
    rw [← List.take_append_drop maxCalls (pairsOf candidates)]
    exact List.mem_append_right _ hpdrop

/-- A batch of three fresh domains under one name, used in witnesses. -/
def candidates₀ : List (String × List String) :=
  [("n", ["a.com", "b.com", "c.com"])]

/-- A live-resolution oracle whose requests all fail with `"net"`. -/
def oracle₀ : String → Except String ProviderResponse :=
  fun _ => Except.error "net"

/-- Witness for C1: three cache-miss domains, quota ceiling 2. -/
theorem checkDomains_quota_exact_witness :
    (firstPass 2 DomainCache.empty (pairsOf candidates₀)).toCheck.length = 2
    ∧ (firstPass 2 DomainCache.empty (pairsOf candidates₀)).results.length
        = (pairsOf candidates₀).length - 2
    ∧ (∀ e ∈ (firstPass 2 DomainCache.empty (pairsOf candidates₀)).results,
        e.2.2 = quotaDCR e.2.1)
    ∧ (∀ e ∈ (firstPass 2 DomainCache.empty (pairsOf candidates₀)).results,
        DomainCache.get (checkDomains oracle₀ 2 DomainCache.empty candidates₀).2 e.2.1
          = none) :=
  checkDomains_quota_exact oracle₀ 2 DomainCache.empty candidates₀
    (by decide) (by decide) (by decide)

/-- C4: a domain present in the cache has its cached outcome returned
unchanged in that name's results, is never enqueued for live resolution (so
no provider call is made for it, the resolution phase emits no entry for it)
and the quota counter counts only enqueued pairs, so it consumes none. -/
theorem checkDomains_cache_hit (oracle : String → Except String ProviderResponse)
    (maxCalls : Nat) (cache : DomainCache) (candidates : List (String × List String))
    (name d : String) (g : CacheGot)
    (hmem : (name, d) ∈ pairsOf candidates)
    (hg : DomainCache.get cache d = some g) :
    (name, d, cachedDCR d g) ∈ (checkDomains oracle maxCalls cache candidates).1
    ∧ (∀ q ∈ (firstPass maxCalls cache (pairsOf candidates)).toCheck, q.2 ≠ d)
    ∧ (∀ e ∈ (resolvePhase oracle cache
          (firstPass maxCalls cache (pairsOf candidates)).toCheck).1, e.2.1 ≠ d)
    ∧ (firstPass maxCalls cache (pairsOf candidates)).callsMade
        = (firstPass maxCalls cache (pairsOf candidates)).toCheck.length := by
  have hne : ∀ q ∈ (firstPass maxCalls cache (pairsOf candidates)).toCheck, q.2 ≠ d := by
    intro q hq heq
    have hmiss := firstPassAux_toCheck_miss maxCalls cache (pairsOf candidates)
      ⟨[], [], 0⟩ (by intro q hq₀; exact absurd hq₀ (List.not_mem_nil q)) q hq
    rw [heq, hg] at hmiss
    exact Option.noConfusion hmiss
  refine ⟨?_, hne, ?_, ?_⟩
  · exact List.mem_append_left _
      (firstPassAux_hit_mem maxCalls cache (pairsOf candidates) ⟨[], [], 0⟩
        (name, d) g hmem hg)
  · intro e he
    have hres : (resolvePhase oracle cache
        (firstPass maxCalls cache (pairsOf candidates)).toCheck).1
        = ((firstPass maxCalls cache (pairsOf candidates)).toCheck).map
            (resolveEntry oracle) := by
      have h := resolveAux_results oracle
        (firstPass maxCalls cache (pairsOf candidates)).toCheck [] cache
      simpa using h
    rw [hres] at he
    obtain ⟨q, hq, heq⟩ := List.mem_map.mp he
    have : e.2.1 = q.2 := by rw [← heq]; rfl
    rw [this]
    exact hne q hq
  · exact firstPassAux_calls_eq maxCalls cache (pairsOf candidates) ⟨[], [], 0⟩ rfl

/-- A cache holding one entry for `a.com`, used in the C4 witness. -/
def cacheW : DomainCache :=
  DomainCache.set DomainCache.empty "a.com" (AvailVal.vBool true)
    (some 10) (some "stub") none

/-- Witness for C4 at a concrete pre-populated cache. -/
theorem checkDomains_cache_hit_witness :
    ("n", "a.com", cachedDCR "a.com" ⟨some true, some 10, some "stub", none⟩)
      ∈ (checkDomains oracle₀ 2 cacheW candidates₀).1
    ∧ (∀ q ∈ (firstPass 2 cacheW (pairsOf candidates₀)).toCheck, q.2 ≠ "a.com")
    ∧ (∀ e ∈ (resolvePhase oracle₀ cacheW
          (firstPass 2 cacheW (pairsOf candidates₀)).toCheck).1, e.2.1 ≠ "a.com")
    ∧ (firstPass 2 cacheW (pairsOf candidates₀)).callsMade
        = (firstPass 2 cacheW (pairsOf candidates₀)).toCheck.length :=
  checkDomains_cache_hit oracle₀ 2 cacheW candidates₀ "n" "a.com"
    ⟨some true, some 10, some "stub", none⟩ (by decide) (by decide)

/-- C8: an exception escaping one domain's resolution becomes an outcome with
`provider = "error"`, `error = str(exception)` and absent values for that
domain alone; the resolution phase still emits one entry per enqueued pair,
and every requested pair appears with some outcome in the final results —
absence of data is an unknown-availability outcome, never a missing entry. -/
theorem checkDomains_degradation (oracle : String → Except String ProviderResponse)
    (maxCalls : Nat) (cache : DomainCache)
    (candidates : List (String × List String)) :
    (∀ n d e : String, oracle d = Except.error e →
        resolvedDCR oracle (n, d) = ⟨d, none, none, some "error", some e, none⟩)
    ∧ (resolvePhase oracle cache
          (firstPass maxCalls cache (pairsOf candidates)).toCheck).1
        = ((firstPass maxCalls cache (pairsOf candidates)).toCheck).map
            (resolveEntry oracle)
    ∧ (∀ p ∈ pairsOf candidates, ∃ dcr,
        (p.1, p.2, dcr) ∈ (checkDomains oracle maxCalls cache candidates).1) := by
  refine ⟨?_, ?_, ?_⟩
  · intro n d e he
    simp [resolvedDCR, respOf, he]
  · have h := resolveAux_results oracle
      (firstPass maxCalls cache (pairsOf candidates)).toCheck [] cache
    simpa using h
  · intro p hp
    rcases firstPassAux_covered maxCalls cache (pairsOf candidates) ⟨[], [], 0⟩ p hp
      with ⟨dcr, hm⟩ | hm
    · exact ⟨dcr, List.mem_append_left _ hm⟩
    · refine ⟨resolvedDCR oracle p, List.mem_append_right _ ?_⟩
      have h := resolveAux_results oracle
        (firstPass maxCalls cache (pairsOf candidates)).toCheck [] cache
      show (p.1, p.2, resolvedDCR oracle p)
        ∈ ((firstPass maxCalls cache (pairsOf candidates)).toCheck.foldl
            (resolveStep oracle) ([], cache)).1
      rw [h]
      exact List.mem_append_right _ (List.mem_map.mpr ⟨p, hm, rfl⟩)

/-- Witness for C8 with the all-failing oracle. -/
theorem checkDomains_degradation_witness :
    resolvedDCR oracle₀ ("n", "a.com")
      = ⟨"a.com", none, none, some "error", some "net", none⟩
    ∧ ∃ dcr, ("n", "a.com", dcr)
        ∈ (checkDomains oracle₀ 2 DomainCache.empty candidates₀).1 :=
  ⟨(checkDomains_degradation oracle₀ 2 DomainCache.empty candidates₀).1
      "n" "a.com" "net" rfl,
   (checkDomains_degradation oracle₀ 2 DomainCache.empty candidates₀).2.2
      ("n", "a.com") (by decide)⟩

end Domainidom
